import Mathlib

/-!
Verification of the combination-and-metrics subsystem of the
`correntropy-and-ensembles-in-deep-learning` repository.

The definitions below are a shallow embedding, translated from the Python
source, of:
  * the series store `DataPlot` and the metric ledgers `BaseMetrics` /
    `EnsembleMetrics` (`deepensemble/metrics/basemetrics.py`);
  * the combination strategies `AverageCombiner` /
    `PluralityVotingCombiner` (`deepensemble/combiner/averagecombiner.py`)
    and `WeightAverageCombiner` (`libml/combiner/weightaveragecombiner.py`).

Machine floating-point values are embedded as rationals (exact arithmetic);
NumPy `NaN` missing markers are embedded as `none : Option ℚ`.
-/

namespace DeepEnsembles

/-- `DataPlot`: one named ordered (x, y) series (basemetrics.py, class
`DataPlot`).  The private fields `__x`, `__y`, `__name`, `__type` become
`x`, `y`, `name`, `type`. -/
structure DataPlot where
  x : List ℚ
  y : List ℚ
  name : String
  type : String
deriving DecidableEq, Repr

/-- `DataPlot.add_point(x, y)`: appends one coordinate to each axis. -/
def DataPlot.add_point (dp : DataPlot) (px py : ℚ) : DataPlot :=
  { dp with x := dp.x ++ [px], y := dp.y ++ [py] }

/-- `DataPlot.len_data()`: number of points, `len(self.__x)`. -/
def DataPlot.len_data (dp : DataPlot) : Nat := dp.x.length

/-- The points of a channel (a list of `DataPlot` runs), flattened in run
order: run k contributes its (x, y) pairs in order.  This is the
coordinate-wise reading of a channel used to state concatenation facts. -/
def channelPoints (dps : List DataPlot) : List (ℚ × ℚ) :=
  (dps.map (fun dp => dp.x.zip dp.y)).flatten

/-- Association-list lookup for the `OrderedDict` channel maps (first
binding wins, as in a Python dict where keys are unique). -/
def lookupA {α : Type} : List (String × α) → String → Option α
  | [], _ => none
  | (k, v) :: rest, key => if k = key then some v else lookupA rest key

/-- Association-list update `d[key] = v`: replaces the first binding of
`key` in place, or appends a new binding at the end (Python dict
insertion order). -/
def setA {α : Type} : List (String × α) → String → α → List (String × α)
  | [], key, v => [(key, v)]
  | (k, w) :: rest, key, v =>
      if k = key then (k, v) :: rest else (k, w) :: setA rest key v

/-- A pair of per-split values, for the dicts keyed by `train` / `test`. -/
structure SplitPair (α : Type) where
  train : α
  test : α
deriving DecidableEq, Repr

/-- Read the entry of a split dict; callers only pass `"train"` or
`"test"` (enforced by `append_data`). -/
def SplitPair.get {α : Type} (p : SplitPair α) (split : String) : α :=
  if split = "train" then p.train else p.test

/-- Write the entry of a split dict. -/
def SplitPair.set {α : Type} (p : SplitPair α) (split : String) (v : α) :
    SplitPair α :=
  if split = "train" then { p with train := v } else { p with test := v }

/-- The mutable state of a `BaseMetrics` ledger: per split an error
channel, a total-cost channel, and ordered name → channel maps for the
named sub-costs and the named scores (basemetrics.py, `BaseMetrics.__init__`;
the prediction/target history is not needed by any claim and is omitted). -/
structure BaseMetricsState where
  error : SplitPair (List DataPlot)
  cost : SplitPair (List DataPlot)
  costs : SplitPair (List (String × List DataPlot))
  scores : SplitPair (List (String × List DataPlot))
deriving DecidableEq, Repr

/-- The fresh ledger produced by `BaseMetrics.__init__` / `reset`. -/
def emptyMetrics : BaseMetricsState :=
  { error := ⟨[], []⟩, cost := ⟨[], []⟩, costs := ⟨[], []⟩, scores := ⟨[], []⟩ }

/-- The model data consumed by the ledger (§6 external interface):
`get_name()`, `get_result_labels()`, `len(get_costs())`,
`len(get_scores())`. -/
structure ModelInfo where
  name : String
  resultLabels : List String
  nCosts : Nat
  nScores : Nat
deriving DecidableEq, Repr

/-- Static `BaseMetrics.add_point(list_points, x, y, _type, name)`: if the
channel is empty a fresh `DataPlot` is appended, then the FIRST `DataPlot`
of the channel receives the point. -/
def add_point (list_points : List DataPlot) (px py : ℚ)
    (ty nm : String) : List DataPlot :=
  match list_points with
  | [] => [DataPlot.add_point ⟨[], [], nm, ty⟩ px py]
  | dp :: rest => dp.add_point px py :: rest

/-- Static `BaseMetrics.add_data(labels, model_name, data_dict, n_data,
index, data, epoch)`: consumes the next `n_data` values of `data`
positionally, appending each to the channel named by the matching label
(created on demand), and returns the updated dict with the final index. -/
def add_data (labels : List String) (model_name : String) :
    Nat → List (String × List DataPlot) → Nat → List ℚ → ℚ →
    List (String × List DataPlot) × Nat
  | 0, d, index, _, _ => (d, index)
  | n + 1, d, index, data, epoch =>
      let index' := index + 1
      let label := labels.getD index' ""
      let cur := (lookupA d label).getD []
      let d' := setA d label (add_point cur epoch (data.getD index' 0) label model_name)
      add_data labels model_name n d' index' data epoch

/-- The body of `BaseMetrics.append_data` after the split check: appends
`data[0]` to the error channel, `data[1]` to the total-cost channel, the
next `nCosts` values to the named sub-cost channels when `nCosts > 1`,
and the remaining `nScores` values to the named score channels; returns
the new state and the index of the last value consumed. -/
def append_data_core (m : ModelInfo) (s : BaseMetricsState) (data : List ℚ)
    (epoch : ℚ) (split : String) : BaseMetricsState × Nat :=
  let labels := m.resultLabels
  let err' := add_point (s.error.get split) epoch (data.getD 0 0)
      (labels.getD 0 "") m.name
  let cost' := add_point (s.cost.get split) epoch (data.getD 1 0)
      (labels.getD 1 "") m.name
  let cn :=
    if m.nCosts > 1 then
      add_data labels m.name m.nCosts (s.costs.get split) 1 data epoch
    else (s.costs.get split, 1)
  let sn :=
    add_data labels m.name m.nScores (s.scores.get split) cn.2 data epoch
  ({ error := s.error.set split err', cost := s.cost.set split cost',
     costs := s.costs.set split cn.1, scores := s.scores.set split sn.1 },
   sn.2)

/-- `BaseMetrics.append_data(data, epoch, type_set_data)`: raises
`ValueError` unless the split is `train` or `test`, otherwise appends one
training step of values (basemetrics.py lines 264-300). -/
def append_data (m : ModelInfo) (s : BaseMetricsState) (data : List ℚ)
    (epoch : ℚ) (split : String) :
    Except String (BaseMetricsState × Nat) :=
  if split ≠ "train" ∧ split ≠ "test" then
    .error "ValueError: the type set data must be train or test"
  else
    .ok (append_data_core m s data epoch split)

/-- The ledger state a caller holds after one `append_data` call: the new
state on success, the unchanged previous state when the call raised. -/
def run_append (m : ModelInfo) (s : BaseMetricsState) (data : List ℚ)
    (epoch : ℚ) (split : String) : BaseMetricsState :=
  match append_data m s data epoch split with
  | .ok p => p.1
  | .error _ => s

/-- Merge of the `OrderedDict` channel maps inside
`BaseMetrics.append_metric`: for each key of `other` in order, concatenate
onto the existing channel, or adopt the channel when the key is new. -/
def mergeDicts (a b : List (String × List DataPlot)) :
    List (String × List DataPlot) :=
  b.foldl (fun acc kv =>
    match lookupA acc kv.1 with
    | some cur => setA acc kv.1 (cur ++ kv.2)
    | none => acc ++ [kv]) a

/-- `BaseMetrics.append_metric(metric)` (basemetrics.py lines 388-408):
for each split, concatenates the error and total-cost channels
(self-then-other) and merges the named sub-cost and score maps. -/
def append_metric (s other : BaseMetricsState) : BaseMetricsState :=
  { error := ⟨s.error.train ++ other.error.train,
              s.error.test ++ other.error.test⟩,
    cost := ⟨s.cost.train ++ other.cost.train,
             s.cost.test ++ other.cost.test⟩,
    costs := ⟨mergeDicts s.costs.train other.costs.train,
              mergeDicts s.costs.test other.costs.test⟩,
    scores := ⟨mergeDicts s.scores.train other.scores.train,
               mergeDicts s.scores.test other.scores.test⟩ }

/-- The state of an `EnsembleMetrics` ledger: the inherited `BaseMetrics`
state plus the `_models_metric` map of one nested ledger per sub-model
name (basemetrics.py, `EnsembleMetrics.__init__`; the per-model
prediction histories are not needed by any claim and are omitted). -/
structure EnsembleMetricsState where
  base : BaseMetricsState
  models_metric : List (String × BaseMetricsState)
deriving DecidableEq, Repr

/-- The non-ensemble branch of `EnsembleMetrics.append_metric(metric)`
(basemetrics.py lines 812-832): the incoming single-model ledger is merged
into the sub-model slot matching its model name, the slot being created
(adopting the incoming ledger) when absent. -/
def EnsembleMetricsState.append_metric_base (s : EnsembleMetricsState)
    (otherName : String) (other : BaseMetricsState) : EnsembleMetricsState :=
  { s with models_metric :=
      match lookupA s.models_metric otherName with
      | some cur => setA s.models_metric otherName (append_metric cur other)
      | none => s.models_metric ++ [(otherName, other)] }

/-! ### Series alignment for aggregate statistics
(`BaseMetrics._resize_rows`, `BaseMetrics._get_data_per_col`,
`BaseMetrics.plot`).  A matrix is represented as its list of columns, one
column per `DataPlot`; `NaN` is `none`. -/

/-- `BaseMetrics._resize_rows(a, nr)` on one column: `np.resize` truncates
when shrinking; when growing, the rows past the original length are
overwritten with `NaN` (`na[r:nr, :] = np.NaN`). -/
def resize_rows (col : List (Option ℚ)) (nr : Nat) : List (Option ℚ) :=
  if col.length < nr then col ++ List.replicate (nr - col.length) none
  else col.take nr

/-- The loop of `BaseMetrics._get_data_per_col` on one matrix: `n` is the
running row count, `acc` the accumulated columns; each incoming column `c`
carries the `m = dp.len_data()` the source reads off the `DataPlot`.
When `m > n` the accumulated columns are resized up, when `m < n` the
incoming column is resized up, then the column is appended (`np.hstack`). -/
def alignGo : Nat → List (List (Option ℚ)) → List (List ℚ × Nat) →
    List (List (Option ℚ))
  | _, acc, [] => acc
  | n, acc, (c, m) :: rest =>
      let c1 := c.map some
      let acc' := if n < m then acc.map (fun col => resize_rows col m) else acc
      let c2 := if m < n then resize_rows c1 n else c1
      alignGo (max n m) (acc' ++ [c2]) rest

/-- The x-matrix of `BaseMetrics._get_data_per_col(dps)` (as columns). -/
def get_data_per_col_x (dps : List DataPlot) : List (List (Option ℚ)) :=
  alignGo 0 [] (dps.map (fun dp => (dp.x, dp.len_data)))

/-- The y-matrix of `BaseMetrics._get_data_per_col(dps)` (as columns). -/
def get_data_per_col_y (dps : List DataPlot) : List (List (Option ℚ)) :=
  alignGo 0 [] (dps.map (fun dp => (dp.y, dp.len_data)))

/-- The x-axis `_x = x[:, 0]` used by `BaseMetrics.plot`: the first column
of the aligned x-matrix. -/
def plotXAxis (dps : List DataPlot) : List (Option ℚ) :=
  (get_data_per_col_x dps).headD []

/-- Row `p` of a column-major matrix (entries past a column's end read as
missing, which never happens for aligned matrices). -/
def matrixRow (cols : List (List (Option ℚ))) (p : Nat) : List (Option ℚ) :=
  cols.map (fun col => col.getD p none)

/-- `np.nanmean` over one row: the mean of the present entries, missing
markers excluded (not treated as zero). -/
def nanmeanRow (row : List (Option ℚ)) : ℚ :=
  let v := row.filterMap id
  v.sum / v.length

/-- The mean plotted by `BaseMetrics.plot` at row `p`:
`np.nanmean(y, axis=1)` applied to the aligned y-matrix. -/
def plotMeanAt (dps : List DataPlot) (p : Nat) : ℚ :=
  nanmeanRow (matrixRow (get_data_per_col_y dps) p)

/-! ### Combination strategies -/

/-- Pointwise tensor addition (equal shapes in every use below). -/
def addVec (a b : List ℚ) : List ℚ := List.zipWith (· + ·) a b

/-- The accumulation `output = 0.0; for model: output += model.output(_input)`
over vector-valued member outputs: the scalar `0.0` start broadcasts, so
the first member output is taken as is and the rest are added pointwise. -/
def vecSum (l : List (List ℚ)) : List ℚ :=
  l.foldl (fun acc v => if acc.isEmpty then v else addVec acc v) []

/-- `AverageCombiner.output` (averagecombiner.py lines 17-37) over scalar
member outputs: sums the member outputs and divides by the member count;
an empty member list raises `ZeroDivisionError`. -/
def AverageCombiner_output (outputs : List ℚ) : Except String ℚ :=
  if outputs.length = 0 then .error "ZeroDivisionError"
  else .ok (outputs.sum / (outputs.length : ℚ))

/-- `AverageCombiner.output` over vector-valued (classifier) member
outputs: the same loop with pointwise addition and pointwise division. -/
def AverageCombiner_output_vec (outputs : List (List ℚ)) :
    Except String (List ℚ) :=
  if outputs.length = 0 then .error "ZeroDivisionError"
  else .ok ((vecSum outputs).map (fun v => v / (outputs.length : ℚ)))

/-- Index of the first maximum of a list (first-encountered wins ties). -/
def argmaxFirst : List ℚ → Nat
  | [] => 0
  | [_] => 0
  | a :: b :: rest =>
      let j := argmaxFirst (b :: rest)
      if (b :: rest).getD j 0 > a then j + 1 else 0

/-- Modelled from the spec: `get_index_label_classes`
(`deepensemble/utils/utils_classifiers.py`, not under `src/`) decodes a
raw multi-class output vector into a class index — per §4.4 the
label-decoding rule picks the class with the largest output, "ties broken
by the decoding rule's own deterministic tie-break (first-encountered
class in label order)". -/
def get_index_label_classes (o : List ℚ) : Nat := argmaxFirst o

/-- `PluralityVotingCombiner.predict(model, _input)` (averagecombiner.py
lines 58-78): `model.output(_input)` on the ensemble routes to the
inherited `AverageCombiner.output` (the ensemble-output routing is
modelled from the spec, `EnsembleModel` is not under `src/`), and the
averaged raw output is decoded ONCE into a label. -/
def PluralityVotingCombiner_predict (target_labels : List String)
    (member_outputs : List (List ℚ)) : Except String String :=
  match AverageCombiner_output_vec member_outputs with
  | .error e => .error e
  | .ok o => .ok (target_labels.getD (get_index_label_classes o) "")

/-- The claim's reading of plurality voting (spec §4.4 wording, for
comparison with `PluralityVotingCombiner_predict`): decode EACH member's
raw output individually, tally the votes per class, and return the label
with the most votes, first-encountered class winning ties. -/
def pluralityVotePredict (target_labels : List String)
    (member_outputs : List (List ℚ)) : String :=
  let votes := member_outputs.map get_index_label_classes
  let tally := (List.range target_labels.length).map
      (fun c => (votes.count c : ℚ))
  target_labels.getD (argmaxFirst tally) ""

/-! ### Weighted-average combiner
(`libml/combiner/weightaveragecombiner.py`,
`WeightAverageCombiner.update_parameters`, lines 73-111).  Each member's
batch error signal is a vector over the batch; `T.mean` is the mean over
all its entries. -/

/-- Mean of a tensor's entries, `T.mean`. -/
def meanQ (l : List ℚ) : ℚ := l.sum / (l.length : ℚ)

/-- `sum_Cj = 0.0; for j in range(n_models): sum_Cj += errors[j]` — the
scalar start broadcasts, so this is the pointwise sum of the error
vectors. -/
def sum_Cj (errors : List (List ℚ)) (n_models : Nat) : List ℚ :=
  (List.range n_models).foldl
    (fun acc j => if acc.isEmpty then errors.getD j [] else addVec acc (errors.getD j []))
    []

/-- The divisor `T.mean(sum_Cj * errors[i])` of member `i`. -/
def meanDivisor (errors : List (List ℚ)) (n_models i : Nat) : ℚ :=
  meanQ (List.zipWith (· * ·) (sum_Cj errors n_models) (errors.getD i []))

/-- `d = 1.0 / T.mean(sum_Cj * errors[i])` — performed unconditionally,
with no branch on the divisor. -/
def inv_sum_Cij (errors : List (List ℚ)) (n_models i : Nat) : ℚ :=
  1 / meanDivisor errors n_models i

/-- The new weight vector written by
`WeightAverageCombiner.update_parameters`:
`update_param = (1.0 / inv_sum_sum_inv_Ckj) * inv_sum_Cij`. -/
def update_parameters (errors : List (List ℚ)) (n_models : Nat) : List ℚ :=
  let ds := (List.range n_models).map (inv_sum_Cij errors n_models)
  let inv_sum_sum_inv_Ckj := ds.sum
  ds.map (fun d => (1 / inv_sum_sum_inv_Ckj) * d)

/-- Right-padding of a series with missing markers up to `n` positions
(the effect of the alignment loop on a column of length ≤ `n`). -/
def padSome (n : Nat) (c : List ℚ) : List (Option ℚ) :=
  c.map some ++ List.replicate (n - c.length) none

/-- The running row count reached by `_get_data_per_col`: the largest
`len_data` among the aligned series. -/
def maxLenData (dps : List DataPlot) : Nat :=
  dps.foldl (fun a dp => max a dp.len_data) 0

/-- A one-hot vote vector over `k` classes for class `c`. -/
def oneHot (k c : Nat) : List ℚ :=
  (List.range k).map (fun j => if j = c then 1 else 0)

/-- A training loop: one `append_data` call per element of `calls`
(each a pair of the emitted value tuple and the step index), all on the
same split. -/
def foldAppend (m : ModelInfo) (split : String)
    (calls : List (List ℚ × ℚ)) (s : BaseMetricsState) : BaseMetricsState :=
  calls.foldl (fun st c => run_append m st c.1 c.2 split) s

/-- The model of the end-to-end scenario (§8): model `A` declares channel
names `["error", "cost", "score_acc"]`, one cost channel and one score
channel. -/
def modelA : ModelInfo :=
  { name := "A", resultLabels := ["error", "cost", "score_acc"],
    nCosts := 1, nScores := 1 }

/-- A one-point run used by concrete merge examples. -/
def dpA : DataPlot := ⟨[1], [2], "m", "s"⟩

/-- A two-point run used by concrete merge examples. -/
def dpB : DataPlot := ⟨[3, 4], [5, 6], "m", "s"⟩

/-- A concrete fold-one ledger: one error run and one named score channel
`s`. -/
def ledgerA : BaseMetricsState :=
  { error := ⟨[dpA], []⟩, cost := ⟨[], []⟩, costs := ⟨[], []⟩,
    scores := ⟨[("s", [dpA])], []⟩ }

/-- A concrete fold-two ledger: one error run, the shared score channel
`s` and a second score channel `t` absent from `ledgerA`. -/
def ledgerB : BaseMetricsState :=
  { error := ⟨[dpB], []⟩, cost := ⟨[], []⟩, costs := ⟨[], []⟩,
    scores := ⟨[("s", [dpB]), ("t", [dpB])], []⟩ }

/-! ## Helper lemmas -/

theorem SplitPair.get_set {α : Type} (p : SplitPair α) (split : String) (v : α) :
    (p.set split v).get split = v := by
  unfold SplitPair.set SplitPair.get
  split <;> rfl

theorem SplitPair.set_get {α : Type} (p : SplitPair α) (split : String) :
    p.set split (p.get split) = p := by
  unfold SplitPair.set SplitPair.get
  split <;> rfl

theorem lookupA_setA_self {α : Type} (d : List (String × α)) (k : String) (v : α) :
    lookupA (setA d k v) k = some v := by
  induction d with
  | nil => simp [setA, lookupA]
  | cons kv rest ih =>
      by_cases h : kv.1 = k
      · simp [setA, lookupA, h]
      · simp [setA, lookupA, h, ih]

theorem lookupA_setA_ne {α : Type} (d : List (String × α)) (k k' : String) (v : α)
    (h : k' ≠ k) : lookupA (setA d k v) k' = lookupA d k' := by
  induction d with
  | nil => simp [setA, lookupA, fun hh => h hh.symm ∘ Eq.symm, (Ne.symm h)]
  | cons kv rest ih =>
      by_cases hk : kv.1 = k
      · subst hk
        simp [setA, lookupA, Ne.symm h]
      · simp [setA, lookupA, hk, ih]

theorem lookupA_append {α : Type} (a b : List (String × α)) (k : String) :
    lookupA (a ++ b) k =
      match lookupA a k with
      | some v => some v
      | none => lookupA b k := by
  induction a with
  | nil => simp [lookupA]
  | cons kv rest ih =>
      by_cases h : kv.1 = k
      · simp [lookupA, h]
      · simp [lookupA, h, ih]

theorem add_data_snd (labels : List String) (nm : String) :
    ∀ (n : Nat) (d : List (String × List DataPlot)) (index : Nat)
      (data : List ℚ) (epoch : ℚ),
      (add_data labels nm n d index data epoch).2 = index + n := by
  intro n
  induction n with
  | zero => intro d index data epoch; simp [add_data]
  | succ n ih =>
      intro d index data epoch
      rw [add_data, ih]
      omega

theorem channelPoints_append (a b : List DataPlot) :
    channelPoints (a ++ b) = channelPoints a ++ channelPoints b := by
  simp [channelPoints]

theorem sum_map_mul_const (r : ℚ) (l : List ℚ) :
    (l.map (fun d => r * d)).sum = r * l.sum := by
  induction l with
  | nil => simp
  | cons a rest ih => simp [ih, mul_add]

/-! ## C1: weighted-average weight update -/

/-- C1: the weight update of `WeightAverageCombiner.update_parameters`
sets the new weight vector to `d i / Σ d k` where
`d i = 1 / mean(sum_C * errors[i])`, and whenever every divisor
(`mean(sum_C * errors[i])` for each member `i` and the normalizer
`Σ d k`) is nonzero, the new weights sum to `1` in exact arithmetic. -/
theorem C1_weight_update_normalized (errors : List (List ℚ)) (n_models : Nat)
    (hn : errors.length = n_models)
    (hdiv : ∀ i < n_models, meanDivisor errors n_models i ≠ 0)
    (hS : ((List.range n_models).map (inv_sum_Cij errors n_models)).sum ≠ 0) :
    update_parameters errors n_models =
      (List.range n_models).map (fun i =>
        inv_sum_Cij errors n_models i /
          ((List.range n_models).map (inv_sum_Cij errors n_models)).sum) ∧
    (update_parameters errors n_models).sum = 1 := by
  clear hn hdiv
  unfold update_parameters
  set S := ((List.range n_models).map (inv_sum_Cij errors n_models)).sum with hSdef
  constructor
  · rw [List.map_map]
    refine List.map_congr_left ?_
    intro i _
    simp only [Function.comp_apply]
    rw [one_div, inv_mul_eq_div]
  · rw [sum_map_mul_const, ← hSdef, one_div, inv_mul_cancel₀ hS]

/-- C1 witness: a two-member ensemble with batch errors `[1]` and `[2]`
gets weights `[2/3, 1/3]`, which sum to `1`. -/
theorem C1_witness :
    update_parameters [[1], [2]] 2 = [2/3, 1/3] ∧
    (update_parameters [[1], [2]] 2).sum = 1 := by
  refine ⟨?_, (C1_weight_update_normalized [[1], [2]] 2 rfl ?_ ?_).2⟩
  · norm_num [update_parameters, inv_sum_Cij, meanDivisor, meanQ, sum_Cj,
      addVec, List.range_succ]
  · norm_num [meanDivisor, meanQ, sum_Cj, addVec, List.range_succ]
    intro i hi
    interval_cases i <;> norm_num
  · norm_num [inv_sum_Cij, meanDivisor, meanQ, sum_Cj, addVec, List.range_succ]

/-! ## C7: Average combiner -/

/-- C7: `AverageCombiner.output` returns the arithmetic mean of the member
outputs for every non-empty member list (for `[2, 4, 6]` the mean is `4`),
and fails (Python `ZeroDivisionError`) exactly when the member list is
empty. -/
theorem C7_average_combiner (outputs : List ℚ) :
    (outputs ≠ [] →
      AverageCombiner_output outputs = .ok (outputs.sum / (outputs.length : ℚ))) ∧
    (outputs = [] → AverageCombiner_output outputs = .error "ZeroDivisionError") ∧
    AverageCombiner_output [2, 4, 6] = .ok 4 := by
  refine ⟨?_, ?_, ?_⟩
  · intro h
    have : outputs.length ≠ 0 := fun hl => h (List.length_eq_zero.mp hl)
    simp [AverageCombiner_output, this]
  · intro h
    subst h
    simp [AverageCombiner_output]
  · simp only [AverageCombiner_output, List.length_cons, List.length_nil,
      List.sum_cons, List.sum_nil]
    norm_num

/-- C7 witness: members with outputs `[2, 4, 6]` give `(2+4+6)/3`, and the
empty ensemble fails. -/
theorem C7_witness :
    AverageCombiner_output [2, 4, 6] =
      .ok (([2, 4, 6] : List ℚ).sum / (([2, 4, 6] : List ℚ).length : ℚ)) ∧
    AverageCombiner_output [] = .error "ZeroDivisionError" :=
  ⟨(C7_average_combiner [2, 4, 6]).1 (by simp),
   (C7_average_combiner []).2.1 rfl⟩

/-! ## C8: unguarded division by zero in the weight update -/

/-- C8: when member `0` of a two-member ensemble achieves zero error on
every sample of the batch (`errors = [[0,0],[1,1]]`), the divisor
`mean(sum_C * errors[0])` is exactly `0`, and `update_parameters` performs
the division `1 / mean(sum_C * errors[0])` anyway — its translation has no
branch on the divisor, so the degenerate weight vector is produced (here
`[1/0, 1] = [0, 1]` in total rational arithmetic; `inf`-contaminated in
the floating-point source). -/
theorem C8_zero_divisor_unguarded :
    ([[0, 0], [1, 1]] : List (List ℚ)).getD 0 [] = [0, 0] ∧
    meanDivisor [[0, 0], [1, 1]] 2 0 = 0 ∧
    inv_sum_Cij [[0, 0], [1, 1]] 2 0 = 1 / (0 : ℚ) ∧
    update_parameters [[0, 0], [1, 1]] 2 = [1 / (0 : ℚ), 1] := by
  refine ⟨rfl, ?_, ?_, ?_⟩
  · norm_num [meanDivisor, meanQ, sum_Cj, addVec, List.range_succ]
  · norm_num [inv_sum_Cij, meanDivisor, meanQ, sum_Cj, addVec, List.range_succ]
  · norm_num [update_parameters, inv_sum_Cij, meanDivisor, meanQ, sum_Cj,
      addVec, List.range_succ]

/-! ## C6: invalid split fails fast -/

/-- C6: `append_data` with a split other than `train` / `test` fails
immediately with the `ValueError` and the caller's ledger state is
unchanged, while both valid splits return a successful result. -/
theorem C6_invalid_split_fails (m : ModelInfo) (s : BaseMetricsState)
    (data : List ℚ) (epoch : ℚ) (split : String)
    (h1 : split ≠ "train") (h2 : split ≠ "test") :
    append_data m s data epoch split =
      .error "ValueError: the type set data must be train or test" ∧
    run_append m s data epoch split = s ∧
    (∀ sp : String, sp = "train" ∨ sp = "test" →
      append_data m s data epoch sp = .ok (append_data_core m s data epoch sp)) := by
  have herr : append_data m s data epoch split =
      .error "ValueError: the type set data must be train or test" := by
    simp [append_data, h1, h2]
  refine ⟨herr, ?_, ?_⟩
  · simp [run_append, herr]
  · intro sp hsp
    rcases hsp with h | h <;> subst h <;> simp [append_data]

/-- C6 witness: split `"valid"` fails and leaves the fresh ledger as it
was; splits `"train"` and `"test"` do not raise. -/
theorem C6_witness :
    append_data modelA emptyMetrics [] 0 "valid" =
      .error "ValueError: the type set data must be train or test" ∧
    run_append modelA emptyMetrics [] 0 "valid" = emptyMetrics ∧
    (∀ sp : String, sp = "train" ∨ sp = "test" →
      append_data modelA emptyMetrics [] 0 sp =
        .ok (append_data_core modelA emptyMetrics [] 0 sp)) :=
  C6_invalid_split_fails modelA emptyMetrics [] 0 "valid"
    (by decide) (by decide)

/-! ## C9: single declared cost channel -/

/-- C9: when the model declares exactly one cost channel
(`len(get_costs()) = 1`), `append_data` leaves the named sub-cost maps of
both splits untouched (the sub-cost block is consumed only when strictly
more than one cost channel is declared), and the returned index shows only
the error, the total cost and the declared scores were consumed. -/
theorem C9_single_cost_channel (m : ModelInfo) (s : BaseMetricsState)
    (data : List ℚ) (epoch : ℚ) (split : String)
    (hsp : split = "train" ∨ split = "test") (hc : m.nCosts = 1) :
    append_data m s data epoch split =
      .ok (append_data_core m s data epoch split) ∧
    (append_data_core m s data epoch split).1.costs = s.costs ∧
    (append_data_core m s data epoch split).2 = 1 + m.nScores := by
  refine ⟨?_, ?_, ?_⟩
  · rcases hsp with h | h <;> subst h <;> simp [append_data]
  · simp [append_data_core, hc, SplitPair.set_get]
  · simp [append_data_core, hc, add_data_snd]

/-- C9 witness: the scenario model (one cost channel, one score channel)
appends a step without touching the sub-cost maps and consumes values
`0`, `1` and `2` only. -/
theorem C9_witness :
    append_data modelA emptyMetrics [1/10, 1/2, 9/10] 1 "train" =
      .ok (append_data_core modelA emptyMetrics [1/10, 1/2, 9/10] 1 "train") ∧
    (append_data_core modelA emptyMetrics [1/10, 1/2, 9/10] 1 "train").1.costs =
      emptyMetrics.costs ∧
    (append_data_core modelA emptyMetrics [1/10, 1/2, 9/10] 1 "train").2 =
      1 + modelA.nScores :=
  C9_single_cost_channel modelA emptyMetrics [1/10, 1/2, 9/10] 1 "train"
    (Or.inl rfl) rfl

/-! ## C10: merging a single-model ledger into an ensemble ledger -/

/-- C10: the non-ensemble branch of `EnsembleMetrics.append_metric` only
touches the sub-model slot matching the incoming model's name (merging
into it, or adopting the incoming ledger when the slot is absent); the
ensemble-level error, total-cost, named sub-cost and named score series
are unchanged, as is every other sub-model slot. -/
theorem C10_single_model_merge_frame (s : EnsembleMetricsState)
    (otherName : String) (other : BaseMetricsState) :
    (s.append_metric_base otherName other).base.error = s.base.error ∧
    (s.append_metric_base otherName other).base.cost = s.base.cost ∧
    (s.append_metric_base otherName other).base.costs = s.base.costs ∧
    (s.append_metric_base otherName other).base.scores = s.base.scores ∧
    lookupA (s.append_metric_base otherName other).models_metric otherName =
      some ((lookupA s.models_metric otherName).elim other
        (fun cur => append_metric cur other)) ∧
    (∀ k, k ≠ otherName →
      lookupA (s.append_metric_base otherName other).models_metric k =
        lookupA s.models_metric k) := by
  refine ⟨rfl, rfl, rfl, rfl, ?_, ?_⟩
  · unfold EnsembleMetricsState.append_metric_base
    cases hl : lookupA s.models_metric otherName with
    | some cur => simp [hl, lookupA_setA_self]
    | none =>
        simp only [hl]
        rw [lookupA_append]
        simp [hl, lookupA]
  · intro k hk
    unfold EnsembleMetricsState.append_metric_base
    cases hl : lookupA s.models_metric otherName with
    | some cur => simp [hl, lookupA_setA_ne _ _ _ _ hk]
    | none =>
        simp only [hl]
        rw [lookupA_append]
        cases hsk : lookupA s.models_metric k with
        | some v => simp
        | none => simp [lookupA, Ne.symm hk]

/-- C10 witness: merging a fresh single-model ledger named `m2` into an
ensemble ledger holding a slot `m1` creates slot `m2` and leaves the
ensemble-level series and slot `m1` unchanged. -/
theorem C10_witness :
    ((⟨emptyMetrics, [("m1", emptyMetrics)]⟩ :
        EnsembleMetricsState).append_metric_base "m2" emptyMetrics).base.error =
      emptyMetrics.error ∧
    lookupA ((⟨emptyMetrics, [("m1", emptyMetrics)]⟩ :
        EnsembleMetricsState).append_metric_base "m2" emptyMetrics).models_metric "m2" =
      some ((lookupA [("m1", emptyMetrics)] "m2").elim emptyMetrics
        (fun cur => append_metric cur emptyMetrics)) ∧
    lookupA ((⟨emptyMetrics, [("m1", emptyMetrics)]⟩ :
        EnsembleMetricsState).append_metric_base "m2" emptyMetrics).models_metric "m1" =
      lookupA [("m1", emptyMetrics)] "m1" :=
  ⟨(C10_single_model_merge_frame ⟨emptyMetrics, [("m1", emptyMetrics)]⟩
      "m2" emptyMetrics).1,
   (C10_single_model_merge_frame ⟨emptyMetrics, [("m1", emptyMetrics)]⟩
      "m2" emptyMetrics).2.2.2.2.1,
   (C10_single_model_merge_frame ⟨emptyMetrics, [("m1", emptyMetrics)]⟩
      "m2" emptyMetrics).2.2.2.2.2 "m1" (by decide)⟩

/-! ## C2: ledger merge concatenates channels -/

theorem lookupA_eq_none_of_not_mem {α : Type} (d : List (String × α)) (k : String)
    (h : k ∉ d.map Prod.fst) : lookupA d k = none := by
  induction d with
  | nil => rfl
  | cons kv rest ih =>
      simp only [List.map_cons, List.mem_cons] at h
      push_neg at h
      simp [lookupA, fun hh => h.1 hh.symm ∘ Eq.symm, Ne.symm, h.1, ih h.2]

theorem mergeDicts_lookup (b : List (String × List DataPlot)) :
    ∀ (a : List (String × List DataPlot)) (k : String),
      (b.map Prod.fst).Nodup →
      lookupA (mergeDicts a b) k =
        match lookupA a k, lookupA b k with
        | some va, some vb => some (va ++ vb)
        | some va, none => some va
        | none, ob => ob := by
  induction b with
  | nil =>
      intro a k _
      cases h : lookupA a k <;> simp [mergeDicts, lookupA, h]
  | cons kv rest ih =>
      intro a k hnd
      obtain ⟨k', v'⟩ := kv
      simp only [List.map_cons, List.nodup_cons] at hnd
      have hstep : mergeDicts a ((k', v') :: rest) =
          mergeDicts (match lookupA a k' with
            | some cur => setA a k' (cur ++ v')
            | none => a ++ [(k', v')]) rest := rfl
      rw [hstep, ih _ k hnd.2]
      by_cases hkk : k = k'
      · subst hkk
        have hrest : lookupA rest k = none :=
          lookupA_eq_none_of_not_mem rest k hnd.1
        cases ha : lookupA a k with
        | some cur =>
            simp [ha, hrest, lookupA_setA_self, lookupA]
        | none =>
            rw [lookupA_append]
            simp [ha, hrest, lookupA]
      · have hpres : lookupA (match lookupA a k' with
            | some cur => setA a k' (cur ++ v')
            | none => a ++ [(k', v')]) k = lookupA a k := by
          cases ha : lookupA a k' with
          | some cur => simp [lookupA_setA_ne _ _ _ _ hkk]
          | none =>
              rw [lookupA_append]
              cases hak : lookupA a k with
              | some v => simp
              | none => simp [hak, lookupA, Ne.symm hkk]
        rw [hpres]
        simp [lookupA, Ne.symm hkk]

/-- C2: merging ledger `B` into ledger `A` (`BaseMetrics.append_metric`)
yields, per split, the coordinate-wise concatenation of `A`'s then `B`'s
error and total-cost channels, concatenates every named sub-cost/score
channel present in both ledgers in the same order, and adopts named
channels present only in `B` (the key-`Nodup` hypotheses state that `B`'s
maps are genuine dicts, with each key bound once). -/
theorem C2_merge_concatenates (A B : BaseMetricsState)
    (hct : (B.costs.train.map Prod.fst).Nodup)
    (hcs : (B.costs.test.map Prod.fst).Nodup)
    (hst : (B.scores.train.map Prod.fst).Nodup)
    (hss : (B.scores.test.map Prod.fst).Nodup) :
    (channelPoints (append_metric A B).error.train =
       channelPoints A.error.train ++ channelPoints B.error.train) ∧
    (channelPoints (append_metric A B).error.test =
       channelPoints A.error.test ++ channelPoints B.error.test) ∧
    (channelPoints (append_metric A B).cost.train =
       channelPoints A.cost.train ++ channelPoints B.cost.train) ∧
    (channelPoints (append_metric A B).cost.test =
       channelPoints A.cost.test ++ channelPoints B.cost.test) ∧
    (∀ k va vb, lookupA A.costs.train k = some va →
       lookupA B.costs.train k = some vb →
       lookupA (append_metric A B).costs.train k = some (va ++ vb)) ∧
    (∀ k va vb, lookupA A.costs.test k = some va →
       lookupA B.costs.test k = some vb →
       lookupA (append_metric A B).costs.test k = some (va ++ vb)) ∧
    (∀ k va vb, lookupA A.scores.train k = some va →
       lookupA B.scores.train k = some vb →
       lookupA (append_metric A B).scores.train k = some (va ++ vb)) ∧
    (∀ k va vb, lookupA A.scores.test k = some va →
       lookupA B.scores.test k = some vb →
       lookupA (append_metric A B).scores.test k = some (va ++ vb)) ∧
    (∀ k, lookupA A.costs.train k = none →
       lookupA (append_metric A B).costs.train k = lookupA B.costs.train k) ∧
    (∀ k, lookupA A.costs.test k = none →
       lookupA (append_metric A B).costs.test k = lookupA B.costs.test k) ∧
    (∀ k, lookupA A.scores.train k = none →
       lookupA (append_metric A B).scores.train k = lookupA B.scores.train k) ∧
    (∀ k, lookupA A.scores.test k = none →
       lookupA (append_metric A B).scores.test k = lookupA B.scores.test k) := by
  refine ⟨channelPoints_append _ _, channelPoints_append _ _,
          channelPoints_append _ _, channelPoints_append _ _,
          ?_, ?_, ?_, ?_, ?_, ?_, ?_, ?_⟩
  · intro k va vb ha hb
    rw [show (append_metric A B).costs.train =
          mergeDicts A.costs.train B.costs.train from rfl,
        mergeDicts_lookup _ _ _ hct, ha, hb]
  · intro k va vb ha hb
    rw [show (append_metric A B).costs.test =
          mergeDicts A.costs.test B.costs.test from rfl,
        mergeDicts_lookup _ _ _ hcs, ha, hb]
  · intro k va vb ha hb
    rw [show (append_metric A B).scores.train =
          mergeDicts A.scores.train B.scores.train from rfl,
        mergeDicts_lookup _ _ _ hst, ha, hb]
  · intro k va vb ha hb
    rw [show (append_metric A B).scores.test =
          mergeDicts A.scores.test B.scores.test from rfl,
        mergeDicts_lookup _ _ _ hss, ha, hb]
  · intro k ha
    rw [show (append_metric A B).costs.train =
          mergeDicts A.costs.train B.costs.train from rfl,
        mergeDicts_lookup _ _ _ hct, ha]
  · intro k ha
    rw [show (append_metric A B).costs.test =
          mergeDicts A.costs.test B.costs.test from rfl,
        mergeDicts_lookup _ _ _ hcs, ha]
  · intro k ha
    rw [show (append_metric A B).scores.train =
          mergeDicts A.scores.train B.scores.train from rfl,
        mergeDicts_lookup _ _ _ hst, ha]
  · intro k ha
    rw [show (append_metric A B).scores.test =
          mergeDicts A.scores.test B.scores.test from rfl,
        mergeDicts_lookup _ _ _ hss, ha]

/-- C2 witness: merging `ledgerB` into `ledgerA` concatenates the error
points self-then-other, concatenates the shared score channel `s`, and
adopts the channel `t` present only in `ledgerB`. -/
theorem C2_witness :
    channelPoints (append_metric ledgerA ledgerB).error.train =
      channelPoints ledgerA.error.train ++ channelPoints ledgerB.error.train ∧
    lookupA (append_metric ledgerA ledgerB).scores.train "s" =
      some ([dpA] ++ [dpB]) ∧
    lookupA (append_metric ledgerA ledgerB).scores.train "t" =
      lookupA ledgerB.scores.train "t" :=
  ⟨(C2_merge_concatenates ledgerA ledgerB (by simp [ledgerB])
      (by simp [ledgerB]) (by simp [ledgerB]) (by simp [ledgerB])).1,
   (C2_merge_concatenates ledgerA ledgerB (by simp [ledgerB])
      (by simp [ledgerB]) (by simp [ledgerB]) (by simp [ledgerB])).2.2.2.2.2.2.1
     "s" [dpA] [dpB] (by simp [ledgerA, lookupA]) (by simp [ledgerB, lookupA]),
   (C2_merge_concatenates ledgerA ledgerB (by simp [ledgerB])
      (by simp [ledgerB]) (by simp [ledgerB]) (by simp [ledgerB])).2.2.2.2.2.2.2.2.2.2.1
     "t" (by simp [ledgerA, lookupA])⟩

/-! ## C5: append/length and the end-to-end scenario -/

theorem append_core_error_get (m : ModelInfo) (s : BaseMetricsState)
    (data : List ℚ) (epoch : ℚ) (split : String) :
    (append_data_core m s data epoch split).1.error.get split =
      add_point (s.error.get split) epoch (data.getD 0 0)
        (m.resultLabels.getD 0 "") m.name := by
  simp [append_data_core, SplitPair.get_set]

theorem append_core_cost_get (m : ModelInfo) (s : BaseMetricsState)
    (data : List ℚ) (epoch : ℚ) (split : String) :
    (append_data_core m s data epoch split).1.cost.get split =
      add_point (s.cost.get split) epoch (data.getD 1 0)
        (m.resultLabels.getD 1 "") m.name := by
  simp [append_data_core, SplitPair.get_set]

theorem run_append_valid (m : ModelInfo) (s : BaseMetricsState)
    (data : List ℚ) (epoch : ℚ) (split : String)
    (hsp : split = "train" ∨ split = "test") :
    run_append m s data epoch split = (append_data_core m s data epoch split).1 := by
  rcases hsp with h | h <;> subst h <;> simp [run_append, append_data]

theorem foldAppend_error_get (m : ModelInfo) (split : String)
    (hsp : split = "train" ∨ split = "test") (calls : List (List ℚ × ℚ)) :
    ∀ s : BaseMetricsState,
      (foldAppend m split calls s).error.get split =
        calls.foldl (fun l c => add_point l c.2 (c.1.getD 0 0)
          (m.resultLabels.getD 0 "") m.name) (s.error.get split) := by
  induction calls with
  | nil => intro s; rfl
  | cons c rest ih =>
      intro s
      show (foldAppend m split rest (run_append m s c.1 c.2 split)).error.get split = _
      rw [ih, run_append_valid m s c.1 c.2 split hsp, append_core_error_get]
      rfl

theorem foldAppend_cost_get (m : ModelInfo) (split : String)
    (hsp : split = "train" ∨ split = "test") (calls : List (List ℚ × ℚ)) :
    ∀ s : BaseMetricsState,
      (foldAppend m split calls s).cost.get split =
        calls.foldl (fun l c => add_point l c.2 (c.1.getD 1 0)
          (m.resultLabels.getD 1 "") m.name) (s.cost.get split) := by
  induction calls with
  | nil => intro s; rfl
  | cons c rest ih =>
      intro s
      show (foldAppend m split rest (run_append m s c.1 c.2 split)).cost.get split = _
      rw [ih, run_append_valid m s c.1 c.2 split hsp, append_core_cost_get]
      rfl

theorem foldl_add_point_single (ty nm : String) (v : List ℚ × ℚ → ℚ) :
    ∀ (cs : List (List ℚ × ℚ)) (xs ys : List ℚ) (nm2 ty2 : String),
      cs.foldl (fun l c => add_point l c.2 (v c) ty nm) [⟨xs, ys, nm2, ty2⟩] =
        [⟨xs ++ cs.map (fun c => c.2), ys ++ cs.map v, nm2, ty2⟩] := by
  intro cs
  induction cs with
  | nil => intro xs ys nm2 ty2; simp
  | cons c rest ih =>
      intro xs ys nm2 ty2
      show rest.foldl _ (add_point [⟨xs, ys, nm2, ty2⟩] c.2 (v c) ty nm) = _
      rw [show add_point [(⟨xs, ys, nm2, ty2⟩ : DataPlot)] c.2 (v c) ty nm =
            [⟨xs ++ [c.2], ys ++ [v c], nm2, ty2⟩] from rfl, ih]
      simp

theorem foldl_add_point_nil (ty nm : String) (v : List ℚ × ℚ → ℚ) :
    ∀ cs : List (List ℚ × ℚ),
      cs.foldl (fun l c => add_point l c.2 (v c) ty nm) [] =
        if cs.isEmpty then [] else
          [⟨cs.map (fun c => c.2), cs.map v, nm, ty⟩] := by
  intro cs
  cases cs with
  | nil => rfl
  | cons c rest =>
      show rest.foldl _ (add_point [] c.2 (v c) ty nm) = _
      rw [show add_point [] c.2 (v c) ty nm =
            [⟨[c.2], [v c], nm, ty⟩] from rfl,
          foldl_add_point_single]
      simp

/-- C5: for every model, every valid split, and every training loop of `N`
`append_data` calls with pairwise-distinct step indices starting from a
fresh ledger, the split's error channel holds exactly the `N` points
`(step_index, emitted error)` in call order (so its length is `N`), and
likewise the total-cost channel; in particular the §8 scenario — model `A`
emitting `(0.1, 0.5, 0.9)` at epoch 1 and `(0.08, 0.4, 0.92)` at epoch 2
on split `train` — yields error series `[(1, 1/10), (2, 2/25)]`, cost
series `[(1, 1/2), (2, 2/5)]` and score channel `score_acc` series
`[(1, 9/10), (2, 23/25)]`. -/
theorem C5_append_length (m : ModelInfo) (split : String)
    (calls : List (List ℚ × ℚ))
    (hsp : split = "train" ∨ split = "test")
    (hdist : calls.Pairwise (fun a b => a.2 ≠ b.2)) :
    (channelPoints ((foldAppend m split calls emptyMetrics).error.get split) =
       calls.map (fun c => (c.2, c.1.getD 0 0)) ∧
     (channelPoints
        ((foldAppend m split calls emptyMetrics).error.get split)).length =
       calls.length) ∧
    channelPoints ((foldAppend m split calls emptyMetrics).cost.get split) =
      calls.map (fun c => (c.2, c.1.getD 1 0)) ∧
    channelPoints ((foldAppend modelA "train"
        [([1/10, 1/2, 9/10], 1), ([2/25, 2/5, 23/25], 2)]
        emptyMetrics).error.train) = [(1, 1/10), (2, 2/25)] ∧
    channelPoints ((foldAppend modelA "train"
        [([1/10, 1/2, 9/10], 1), ([2/25, 2/5, 23/25], 2)]
        emptyMetrics).cost.train) = [(1, 1/2), (2, 2/5)] ∧
    lookupA ((foldAppend modelA "train"
        [([1/10, 1/2, 9/10], 1), ([2/25, 2/5, 23/25], 2)]
        emptyMetrics).scores.train) "score_acc" =
      some [⟨[1, 2], [9/10, 23/25], "A", "score_acc"⟩] := by
  clear hdist
  have herr : channelPoints
      ((foldAppend m split calls emptyMetrics).error.get split) =
      calls.map (fun c => (c.2, c.1.getD 0 0)) := by
    rw [foldAppend_error_get m split hsp calls emptyMetrics,
        show emptyMetrics.error.get split = [] by
          rcases hsp with h | h <;> subst h <;> rfl,
        foldl_add_point_nil]
    cases calls with
    | nil => rfl
    | cons c rest =>
        simp only [List.isEmpty_cons, if_neg]
        simp [channelPoints, List.zip_map']
  refine ⟨⟨herr, by rw [herr]; simp⟩, ?_, ?_, ?_, ?_⟩
  · rw [foldAppend_cost_get m split hsp calls emptyMetrics,
        show emptyMetrics.cost.get split = [] by
          rcases hsp with h | h <;> subst h <;> rfl,
        foldl_add_point_nil]
    cases calls with
    | nil => rfl
    | cons c rest =>
        simp only [List.isEmpty_cons, if_neg]
        simp [channelPoints, List.zip_map']
  · norm_num [foldAppend, run_append, append_data, append_data_core,
      add_point, add_data, DataPlot.add_point, modelA, emptyMetrics, lookupA,
      setA, SplitPair.get, SplitPair.set, channelPoints]
  · norm_num [foldAppend, run_append, append_data, append_data_core,
      add_point, add_data, DataPlot.add_point, modelA, emptyMetrics, lookupA,
      setA, SplitPair.get, SplitPair.set, channelPoints]
  · norm_num [foldAppend, run_append, append_data, append_data_core,
      add_point, add_data, DataPlot.add_point, modelA, emptyMetrics, lookupA,
      setA, SplitPair.get, SplitPair.set, channelPoints]

/-- C5 witness: the two-step scenario loop (distinct step indices 1 and 2)
produces an error series of exactly the two emitted points. -/
theorem C5_witness :
    channelPoints ((foldAppend modelA "train"
        [([1/10, 1/2, 9/10], 1), ([2/25, 2/5, 23/25], 2)]
        emptyMetrics).error.get "train") =
      ([([1/10, 1/2, 9/10], 1), ([2/25, 2/5, 23/25], 2)] :
        List (List ℚ × ℚ)).map (fun c => (c.2, c.1.getD 0 0)) ∧
    (channelPoints ((foldAppend modelA "train"
        [([1/10, 1/2, 9/10], 1), ([2/25, 2/5, 23/25], 2)]
        emptyMetrics).error.get "train")).length = 2 :=
  (C5_append_length modelA "train"
    [([1/10, 1/2, 9/10], 1), ([2/25, 2/5, 23/25], 2)]
    (Or.inl rfl) (by norm_num)).1

/-! ## C3: alignment and aggregate statistics -/

theorem padSome_length (n : Nat) (c : List ℚ) (h : c.length ≤ n) :
    (padSome n c).length = n := by
  simp [padSome]
  omega

theorem resize_rows_padSome (c : List ℚ) (n m : Nat)
    (hc : c.length ≤ n) (hnm : n ≤ m) :
    resize_rows (padSome n c) m = padSome m c := by
  rcases Nat.lt_or_ge n m with h | h
  · rw [resize_rows, if_pos (by rw [padSome_length n c hc]; exact h),
        padSome_length n c hc]
    unfold padSome
    rw [List.append_assoc, ← List.replicate_add]
    congr 2
    omega
  · have hnmeq : n = m := Nat.le_antisymm hnm h
    subst hnmeq
    rw [resize_rows, if_neg (by rw [padSome_length n c hc]; omega)]
    exact List.take_of_length_le (le_of_eq (padSome_length n c hc))

theorem resize_rows_map_some (c : List ℚ) (n : Nat) (h : c.length ≤ n) :
    resize_rows (c.map some) n = padSome n c := by
  rcases Nat.lt_or_ge c.length n with hlt | hge
  · rw [resize_rows, if_pos (by simpa using hlt)]
    simp [padSome]
  · have : c.length = n := Nat.le_antisymm h hge
    subst this
    rw [resize_rows, if_neg (by simp)]
    simp [padSome]

theorem alignGo_spec :
    ∀ (cols : List (List ℚ × Nat)) (n : Nat) (pre : List (List ℚ)),
      (∀ cm ∈ cols, cm.2 = cm.1.length) →
      (∀ c ∈ pre, c.length ≤ n) →
      alignGo n (pre.map (padSome n)) cols =
        (pre ++ cols.map Prod.fst).map
          (padSome (cols.foldl (fun a cm => max a cm.2) n)) := by
  intro cols
  induction cols with
  | nil =>
      intro n pre _ _
      simp [alignGo]
  | cons cm rest ih =>
      intro n pre hm hb
      obtain ⟨c, m⟩ := cm
      have hmc : m = c.length := hm (c, m) (List.mem_cons_self _ _)
      subst hmc
      show alignGo n (pre.map (padSome n)) ((c, c.length) :: rest) = _
      rw [alignGo]
      have hacc : (if n < c.length then
            (pre.map (padSome n)).map (fun col => resize_rows col c.length)
          else pre.map (padSome n)) ++
          [if c.length < n then resize_rows (c.map some) n else c.map some] =
          (pre ++ [c]).map (padSome (max n c.length)) := by
        rcases Nat.lt_or_ge n c.length with h | h
        · rw [if_pos h, if_neg (by omega), Nat.max_eq_right (Nat.le_of_lt h)]
          rw [List.map_map, List.map_append]
          congr 1
          · refine List.map_congr_left ?_
            intro x hx
            exact resize_rows_padSome x n c.length (hb x hx) (Nat.le_of_lt h)
          · simp [padSome]
        · rw [if_neg (by omega), Nat.max_eq_left h, List.map_append]
          congr 1
          rcases Nat.lt_or_ge c.length n with h2 | h2
          · rw [if_pos h2]
            simp [resize_rows_map_some c n h]
          · have : c.length = n := Nat.le_antisymm h h2
            subst this
            rw [if_neg (by omega)]
            simp [padSome]
      rw [hacc, ih (max n c.length) (pre ++ [c])
        (fun x hx => hm x (List.mem_cons_of_mem _ hx))
        (by
          intro x hx
          rcases List.mem_append.mp hx with h | h
          · exact Nat.le_trans (hb x h) (Nat.le_max_left _ _)
          · rw [List.mem_singleton.mp h]
            exact Nat.le_max_right _ _)]
      simp [List.append_assoc]

theorem foldl_max_init_le :
    ∀ (dps : List DataPlot) (b : Nat),
      b ≤ dps.foldl (fun a x => max a x.len_data) b := by
  intro dps
  induction dps with
  | nil => intro b; exact Nat.le_refl _
  | cons d rest ih =>
      intro b
      exact Nat.le_trans (Nat.le_max_left _ _) (ih (max b d.len_data))

theorem le_foldl_max_len :
    ∀ (dps : List DataPlot) (b : Nat) (dp : DataPlot), dp ∈ dps →
      dp.len_data ≤ dps.foldl (fun a x => max a x.len_data) b := by
  intro dps
  induction dps with
  | nil => intro b dp h; cases h
  | cons d rest ih =>
      intro b dp h
      rcases List.mem_cons.mp h with h | h
      · subst h
        exact Nat.le_trans (Nat.le_max_right b dp.len_data)
          (foldl_max_init_le rest (max b dp.len_data))
      · exact ih (max b d.len_data) dp h

theorem le_maxLenData (dps : List DataPlot) (dp : DataPlot) (h : dp ∈ dps) :
    dp.len_data ≤ maxLenData dps :=
  le_foldl_max_len dps 0 dp h

theorem get_data_per_col_y_spec (dps : List DataPlot)
    (hinv : ∀ dp ∈ dps, dp.x.length = dp.y.length) :
    get_data_per_col_y dps = dps.map (fun dp => padSome (maxLenData dps) dp.y) := by
  unfold get_data_per_col_y
  have h := alignGo_spec (dps.map (fun dp => (dp.y, dp.len_data))) 0 []
    (by
      intro cm hcm
      rcases List.mem_map.mp hcm with ⟨dp, hdp, rfl⟩
      exact hinv dp hdp)
    (by intro c hc; cases hc)
  simp only [List.map_nil] at h
  rw [h, List.nil_append, List.map_map, List.foldl_map, List.map_map]
  rfl

theorem get_data_per_col_x_spec (dps : List DataPlot) :
    get_data_per_col_x dps = dps.map (fun dp => padSome (maxLenData dps) dp.x) := by
  unfold get_data_per_col_x
  have h := alignGo_spec (dps.map (fun dp => (dp.x, dp.len_data))) 0 []
    (by
      intro cm hcm
      rcases List.mem_map.mp hcm with ⟨dp, hdp, rfl⟩
      rfl)
    (by intro c hc; cases hc)
  simp only [List.map_nil] at h
  rw [h, List.nil_append, List.map_map, List.foldl_map, List.map_map]
  rfl

theorem replicate_none_getD (k p : Nat) :
    (List.replicate k (none : Option ℚ)).getD p none = none := by
  induction k generalizing p with
  | zero => rfl
  | succ k ih =>
      cases p with
      | zero => rfl
      | succ p => exact ih p

theorem padSome_getD :
    ∀ (c : List ℚ) (n p : Nat), c.length ≤ n →
      (padSome n c).getD p none =
        if p < c.length then some (c.getD p 0) else none := by
  intro c
  induction c with
  | nil =>
      intro n p _
      simp [padSome, replicate_none_getD]
  | cons a c' ih =>
      intro n p h
      have hcons : padSome n (a :: c') = some a :: padSome (n - 1) c' := by
        unfold padSome
        have hlen : n - (a :: c').length = n - 1 - c'.length := by
          simp only [List.length_cons]
          omega
        rw [List.map_cons, hlen]
        rfl
      rw [hcons]
      cases p with
      | zero => simp
      | succ p =>
          simp only [List.getD_cons_succ, List.length_cons]
          rw [ih (n - 1) p (by simp at h; omega)]
          by_cases hp : p < c'.length
          · rw [if_pos hp, if_pos (by omega)]
          · rw [if_neg hp, if_neg (by omega)]

theorem filterMap_row (dps : List DataPlot) (p : Nat) :
    dps.filterMap (fun dp =>
      if p < dp.y.length then some (dp.y.getD p 0) else none) =
      (dps.filter (fun dp => p < dp.y.length)).map (fun dp => dp.y.getD p 0) := by
  induction dps with
  | nil => rfl
  | cons d rest ih =>
      simp only [List.getD, List.get?_eq_getElem?] at ih ⊢
      rw [List.filterMap_cons, List.filter_cons]
      by_cases h : p < d.y.length
      · rw [if_pos h, if_pos (by simpa using h)]
        simp [ih]
      · rw [if_neg h, if_neg (by simpa using h)]
        exact ih

/-- C3 (amended): aggregating same-channel series of unequal lengths
right-pads every shorter series with missing markers up to the longest
series' length (never truncating), excludes padded positions from the
per-position mean (missing is not treated as zero), and uses as the
combined series' x-axis the x-coordinates of the FIRST series, right-padded
with missing markers — not the x-coordinates of the longest series, as the
claim states. -/
theorem C3_alignment_amended (dps : List DataPlot)
    (hinv : ∀ dp ∈ dps, dp.x.length = dp.y.length) :
    get_data_per_col_y dps =
      dps.map (fun dp => padSome (maxLenData dps) dp.y) ∧
    get_data_per_col_x dps =
      dps.map (fun dp => padSome (maxLenData dps) dp.x) ∧
    (∀ p, plotMeanAt dps p =
      meanQ ((dps.filter (fun dp => p < dp.y.length)).map
        (fun dp => dp.y.getD p 0))) ∧
    (∀ dp0 rest, dps = dp0 :: rest →
      plotXAxis dps = padSome (maxLenData dps) dp0.x) := by
  have hy := get_data_per_col_y_spec dps hinv
  refine ⟨hy, get_data_per_col_x_spec dps, ?_, ?_⟩
  · intro p
    have hN : ∀ dp ∈ dps, dp.y.length ≤ maxLenData dps := by
      intro dp hdp
      rw [← hinv dp hdp]
      exact le_maxLenData dps dp hdp
    have hrow : matrixRow (get_data_per_col_y dps) p =
        dps.map (fun dp =>
          if p < dp.y.length then some (dp.y.getD p 0) else none) := by
      unfold matrixRow
      rw [hy, List.map_map]
      refine List.map_congr_left ?_
      intro dp hdp
      exact padSome_getD dp.y (maxLenData dps) p (hN dp hdp)
    unfold plotMeanAt nanmeanRow
    rw [hrow, List.filterMap_map,
        show (id ∘ (fun dp : DataPlot =>
            if p < dp.y.length then some (dp.y.getD p 0) else none)) =
          (fun dp : DataPlot =>
            if p < dp.y.length then some (dp.y.getD p 0) else none) from rfl,
        filterMap_row]
    rfl
  · intro dp0 rest hdps
    subst hdps
    unfold plotXAxis
    rw [get_data_per_col_x_spec]
    rfl

/-- C3 counterexample: for the two series with x-coordinates `[10]` and
`[1, 2]` (the second one the longest, `len_data` 2 vs 1), the combined
x-axis is `[10, NaN]` — the FIRST series' x-coordinates padded with a
missing marker — and not `[1, 2]`, the x-coordinates of the longest
series, refuting the claim's x-axis rule. -/
theorem C3_counterexample :
    (⟨[10], [1], "m", "s"⟩ : DataPlot).len_data = 1 ∧
    (⟨[1, 2], [5, 6], "m", "s"⟩ : DataPlot).len_data = 2 ∧
    plotXAxis [⟨[10], [1], "m", "s"⟩, ⟨[1, 2], [5, 6], "m", "s"⟩] =
      [some 10, none] ∧
    plotXAxis [⟨[10], [1], "m", "s"⟩, ⟨[1, 2], [5, 6], "m", "s"⟩] ≠
      (⟨[1, 2], [5, 6], "m", "s"⟩ : DataPlot).x.map some := by
  have hx : plotXAxis [⟨[10], [1], "m", "s"⟩, ⟨[1, 2], [5, 6], "m", "s"⟩] =
      [some 10, none] := by
    norm_num [plotXAxis, get_data_per_col_x, alignGo, resize_rows,
      DataPlot.len_data]
  refine ⟨rfl, rfl, hx, ?_⟩
  rw [hx]
  simp

/-- C3 witness: on the concrete unequal-length pair the amended theorem
evaluates — the x-axis is the first series padded, and the mean at
position 1 is taken over the single series that reaches that position. -/
theorem C3_witness :
    plotXAxis [⟨[10], [1], "m", "s"⟩, ⟨[1, 2], [5, 6], "m", "s"⟩] =
      padSome (maxLenData [⟨[10], [1], "m", "s"⟩, ⟨[1, 2], [5, 6], "m", "s"⟩])
        (⟨[10], [1], "m", "s"⟩ : DataPlot).x ∧
    plotMeanAt [⟨[10], [1], "m", "s"⟩, ⟨[1, 2], [5, 6], "m", "s"⟩] 1 =
      meanQ ((([⟨[10], [1], "m", "s"⟩, ⟨[1, 2], [5, 6], "m", "s"⟩] :
          List DataPlot).filter (fun dp => 1 < dp.y.length)).map
        (fun dp => dp.y.getD 1 0)) := by
  have hinv : ∀ dp ∈ ([⟨[10], [1], "m", "s"⟩, ⟨[1, 2], [5, 6], "m", "s"⟩] :
      List DataPlot), dp.x.length = dp.y.length := by
    intro dp hdp
    rcases List.mem_cons.mp hdp with rfl | hdp2
    · rfl
    · rcases List.mem_cons.mp hdp2 with rfl | h
      · rfl
      · cases h
  exact ⟨(C3_alignment_amended _ hinv).2.2.2 _ _ rfl,
         (C3_alignment_amended _ hinv).2.2.1 1⟩

/-! ## C4: plurality voting -/

theorem argmaxFirst_lt_length : ∀ l : List ℚ, l ≠ [] → argmaxFirst l < l.length := by
  intro l
  induction l with
  | nil => intro h; cases h rfl
  | cons a rest ih =>
      intro _
      cases rest with
      | nil => simp [argmaxFirst]
      | cons b rs =>
          rw [argmaxFirst]
          have hr := ih (by simp)
          split
          · simpa using hr
          · simp

theorem argmaxFirst_is_max :
    ∀ (l : List ℚ) (p : Nat), p < l.length →
      l.getD p 0 ≤ l.getD (argmaxFirst l) 0 := by
  intro l
  induction l with
  | nil => intro p h; cases (by simpa using h : False)
  | cons a rest ih =>
      intro p hp
      cases rest with
      | nil =>
          have hp1 : p = 0 := by simp at hp; omega
          subst hp1
          simp [argmaxFirst]
      | cons b rs =>
          rw [argmaxFirst]
          split
          · rename_i hgt
            cases p with
            | zero =>
                simpa using le_of_lt hgt
            | succ p =>
                simp only [List.getD_cons_succ]
                exact ih p (by simpa using hp)
          · rename_i hle
            push_neg at hle
            cases p with
            | zero => simp
            | succ p =>
                simp only [List.getD_cons_succ, List.getD_cons_zero]
                exact le_trans (ih p (by simpa using hp)) hle

theorem argmaxFirst_map_iff (f : ℚ → ℚ)
    (hf : ∀ a b : ℚ, f a < f b ↔ a < b) :
    ∀ l : List ℚ, argmaxFirst (l.map f) = argmaxFirst l := by
  intro l
  induction l with
  | nil => rfl
  | cons a rest ih =>
      cases rest with
      | nil => rfl
      | cons b rs =>
          simp only [List.map_cons] at ih ⊢
          rw [argmaxFirst, argmaxFirst, ih]
          have hlt : argmaxFirst (b :: rs) < (b :: rs).length :=
            argmaxFirst_lt_length (b :: rs) (by simp)
          have hgd : (f b :: List.map f rs).getD (argmaxFirst (b :: rs)) 0 =
              f ((b :: rs).getD (argmaxFirst (b :: rs)) 0) := by
            rw [show (f b :: List.map f rs) = List.map f (b :: rs) from rfl,
                List.getD_eq_getElem _ _ (by simpa using hlt),
                List.getD_eq_getElem _ _ hlt]
            simp only [List.getElem_map]
          rw [hgd]
          by_cases h : (b :: rs).getD (argmaxFirst (b :: rs)) 0 > a
          · rw [if_pos h, if_pos ((hf _ _).mpr h)]
          · rw [if_neg h, if_neg (fun hc => h ((hf _ _).mp hc))]

theorem oneHot_length (k c : Nat) : (oneHot k c).length = k := by
  simp [oneHot]

theorem oneHot_getD (k c p : Nat) (hp : p < k) :
    (oneHot k c).getD p 0 = if p = c then 1 else 0 := by
  rw [List.getD_eq_getElem _ _ (by simpa [oneHot_length] using hp)]
  simp [oneHot]

theorem argmaxFirst_oneHot (k c : Nat) (hc : c < k) :
    argmaxFirst (oneHot k c) = c := by
  have hne : oneHot k c ≠ [] := by
    intro h
    have := congrArg List.length h
    rw [oneHot_length] at this
    simp at this
    omega
  have hj := argmaxFirst_lt_length (oneHot k c) hne
  rw [oneHot_length] at hj
  have hmax := argmaxFirst_is_max (oneHot k c) c
    (by rw [oneHot_length]; exact hc)
  rw [oneHot_getD k c c hc, if_pos rfl, oneHot_getD k c _ hj] at hmax
  by_contra hne2
  rw [if_neg hne2] at hmax
  norm_num at hmax

theorem addVec_map {α : Type} (l : List α) (f g : α → ℚ) :
    addVec (l.map f) (l.map g) = l.map (fun x => f x + g x) := by
  induction l with
  | nil => rfl
  | cons a rest ih => simp [addVec] at ih ⊢

theorem count_cons_q (c j : Nat) (rest : List Nat) :
    (((c :: rest).count j : Nat) : ℚ) =
      ((rest.count j : Nat) : ℚ) + if j = c then 1 else 0 := by
  by_cases h : j = c
  · subst h
    rw [if_pos rfl, List.count_cons]
    push_cast
    simp
  · rw [if_neg h, List.count_cons]
    push_cast
    simp [Ne.symm h, h]

theorem foldl_addVec_onehots (k : Nat) (hk : 0 < k) :
    ∀ (cs : List Nat) (f : Nat → ℚ),
      (cs.map (oneHot k)).foldl
        (fun acc v => if acc.isEmpty then v else addVec acc v)
        ((List.range k).map f) =
      (List.range k).map (fun j => f j + (cs.count j : ℚ)) := by
  intro cs
  induction cs with
  | nil =>
      intro f
      simp
  | cons c rest ih =>
      intro f
      have hne : (((List.range k).map f).isEmpty) = false := by
        cases hkk : (List.range k).map f with
        | nil =>
            exfalso
            have := congrArg List.length hkk
            simp at this
            omega
        | cons x xs => rfl
      show (rest.map (oneHot k)).foldl _
          (if ((List.range k).map f).isEmpty then oneHot k c
           else addVec ((List.range k).map f) (oneHot k c)) = _
      rw [hne]
      simp only [Bool.false_eq_true, if_false]
      rw [show oneHot k c = (List.range k).map (fun j => if j = c then 1 else 0)
            from rfl,
          addVec_map, ih]
      refine List.map_congr_left ?_
      intro j _
      rw [count_cons_q]
      by_cases hjc : j = c
      · rw [if_pos hjc]
        ring
      · rw [if_neg hjc]
        ring

theorem vecSum_onehots (k : Nat) (c : Nat) (rest : List Nat) (hc : c < k) :
    vecSum (((c :: rest)).map (oneHot k)) =
      (List.range k).map (fun j => ((c :: rest).count j : ℚ)) := by
  have hk : 0 < k := Nat.pos_of_ne_zero (by omega)
  rw [show vecSum ((c :: rest).map (oneHot k)) =
      (rest.map (oneHot k)).foldl
        (fun acc v => if acc.isEmpty then v else addVec acc v)
        (oneHot k c) from rfl,
      show oneHot k c = (List.range k).map (fun j => if j = c then 1 else 0)
        from rfl,
      foldl_addVec_onehots k hk rest]
  refine List.map_congr_left ?_
  intro j _
  rw [count_cons_q]
  by_cases hjc : j = c
  · rw [if_pos hjc]
    ring
  · rw [if_neg hjc]
    ring

/-- C4 (amended): `PluralityVotingCombiner.predict` decodes the arithmetic
MEAN of the members' raw outputs once — it does not decode each member's
raw output individually.  When every member emits a one-hot vote vector
over the `k` classes, decoding the mean coincides with plurality voting
(label with the most member votes, first-encountered class winning ties),
the only tie-break being the decoding rule's own. -/
theorem C4_plurality_amended (target_labels : List String) (k : Nat)
    (cs : List Nat) (hne : cs ≠ []) (hck : ∀ c ∈ cs, c < k)
    (hlen : target_labels.length = k) :
    PluralityVotingCombiner_predict target_labels (cs.map (oneHot k)) =
      .ok (pluralityVotePredict target_labels (cs.map (oneHot k))) ∧
    (cs.map (oneHot k)).map get_index_label_classes = cs := by
  have hdec : (cs.map (oneHot k)).map get_index_label_classes = cs := by
    rw [List.map_map]
    have h1 : ∀ c ∈ cs, (get_index_label_classes ∘ oneHot k) c = c := by
      intro c hc
      exact argmaxFirst_oneHot k c (hck c hc)
    calc cs.map (get_index_label_classes ∘ oneHot k)
        = cs.map id := List.map_congr_left h1
      _ = cs := List.map_id cs
  refine ⟨?_, hdec⟩
  obtain ⟨c0, rest, rfl⟩ : ∃ c0 rest, cs = c0 :: rest := by
    cases cs with
    | nil => exact absurd rfl hne
    | cons a b => exact ⟨a, b, rfl⟩
  have hc0 : c0 < k := hck c0 (List.mem_cons_self _ _)
  have hlpos : (0 : ℚ) < ((((c0 :: rest).map (oneHot k)).length : Nat) : ℚ) := by
    have h0 : 0 < ((c0 :: rest).map (oneHot k)).length := by simp
    exact_mod_cast h0
  have havg : AverageCombiner_output_vec ((c0 :: rest).map (oneHot k)) =
      .ok (((List.range k).map (fun j => (((c0 :: rest).count j : Nat) : ℚ))).map
        (fun v => v / ((((c0 :: rest).map (oneHot k)).length : Nat) : ℚ))) := by
    unfold AverageCombiner_output_vec
    rw [if_neg (by simp), vecSum_onehots k c0 rest hc0]
  simp only [PluralityVotingCombiner_predict, havg]
  unfold get_index_label_classes
  rw [argmaxFirst_map_iff
      (fun v => v / ((((c0 :: rest).map (oneHot k)).length : Nat) : ℚ))
      (fun a b => div_lt_div_iff_of_pos_right hlpos)]
  simp only [pluralityVotePredict, hdec, hlen]

/-- C4 counterexample: with labels `[A, B]` and raw member outputs
`[1, 0]`, `[2/5, 3/5]`, `[2/5, 3/5]`, decoding each member individually
gives votes A, B, B — plurality elects `B` — but the combiner averages
the raw outputs to `[3/5, 2/5]` and decodes once, returning `A`.  The
claim's per-member-vote description is false on the code. -/
theorem C4_counterexample :
    PluralityVotingCombiner_predict ["A", "B"]
      [[1, 0], [2/5, 3/5], [2/5, 3/5]] = .ok "A" ∧
    pluralityVotePredict ["A", "B"]
      [[1, 0], [2/5, 3/5], [2/5, 3/5]] = "B" ∧
    ("A" : String) ≠ "B" := by
  refine ⟨?_, ?_, by decide⟩
  · norm_num [PluralityVotingCombiner_predict, AverageCombiner_output_vec,
      vecSum, addVec, get_index_label_classes, argmaxFirst]
  · norm_num [pluralityVotePredict, get_index_label_classes, argmaxFirst,
      List.count_cons, List.range_succ]

/-- C4 witness: for one-hot votes A, B, B the combiner's decode-of-mean
agrees with plurality voting (both elect `B`). -/
theorem C4_witness :
    PluralityVotingCombiner_predict ["A", "B"] ([0, 1, 1].map (oneHot 2)) =
      .ok (pluralityVotePredict ["A", "B"] ([0, 1, 1].map (oneHot 2))) :=
  (C4_plurality_amended ["A", "B"] 2 [0, 1, 1] (by simp)
    (by decide) rfl).1

end DeepEnsembles
